import Mathlib

/-!
Verification of the resolution-engine core of the discord-bot repository.

The Python sources are embedded shallowly:

* Python strings are modelled as `List Char` (`Str`), with the handful of
  `str` methods the code uses (`strip`, `split`, `lower`, `isdigit`,
  `startswith`, `int(...)`, `str(...)`) modelled as executable functions on
  character lists (`stripList`, `splitWS`, `toLowerList`, `isDigitCh`,
  `parseNat`, `natReprRec`).
* Python dicts are modelled as association lists (`assocFind` / `assocSet`),
  which preserve insertion order exactly like CPython dicts; key-uniqueness
  of a dict is expressed as a `Nodup` hypothesis on the key list where an
  iteration order proof needs it.
* The mutable cog state becomes explicit state records that each modelled
  operation takes and returns.

Sources embedded below:
  src/botV2/cogs/visit_count.py  (VisitCountCog)
  src/bot/cogs/knocks.py         (KnocksCog.knock, enchanted path)
  src/bot/cogs/phases.py         (PhasesCog)
  src/bot/cogs/action_queue.py   (ActionQueueCog: phase epochs, roleblock
                                  sweep, OS queue ordering and processing)
-/

/-- Python strings are modelled as lists of characters. -/
abbrev Str := List Char

/-- Model of the whitespace test used by Python `str.strip` / `str.split`
(ASCII whitespace: space, tab, LF, VT, FF, CR). -/
def isWSCh (c : Char) : Bool :=
  c.toNat = 32 || c.toNat = 9 || c.toNat = 10 || c.toNat = 11 || c.toNat = 12 || c.toNat = 13

/-- Model of Python `str.isdigit` for a single character (ASCII digits). -/
def isDigitCh (c : Char) : Bool :=
  48 ≤ c.toNat && c.toNat ≤ 57

/-- Model of Python `str.lower` on one character (ASCII). -/
def toLowerCh (c : Char) : Char :=
  if 65 ≤ c.toNat && c.toNat ≤ 90 then Char.ofNat (c.toNat + 32) else c

/-- Model of Python `str.lower`. -/
def toLowerList (s : Str) : Str := s.map toLowerCh

/-- Model of Python `str.strip` (drop leading and trailing whitespace). -/
def stripList (s : Str) : Str :=
  ((s.dropWhile isWSCh).reverse.dropWhile isWSCh).reverse

/-- Worker for `splitWS`; `acc` holds the chars of the current word, reversed. -/
def splitWSAux : List Char → List Char → List Str
  | [], acc => if acc.isEmpty then [] else [acc.reverse]
  | c :: cs, acc =>
    if isWSCh c then
      if acc.isEmpty then splitWSAux cs [] else acc.reverse :: splitWSAux cs []
    else splitWSAux cs (c :: acc)

/-- Model of Python `str.split()` with no argument: split on whitespace runs,
discarding empty pieces. -/
def splitWS (s : Str) : List Str := splitWSAux s []

/-- Numeric value of an ASCII digit character. -/
def digitVal (c : Char) : Nat := c.toNat - 48

/-- Model of Python `int(...)` applied to a string of ASCII digits. -/
def parseNat (s : Str) : Nat := s.foldl (fun a c => a * 10 + digitVal c) 0

/-- The ASCII digit character for a value below ten. -/
def digitChar (d : Nat) : Char := Char.ofNat (48 + d)

/-- Worker for `natReprRec`, structurally recursive on a fuel bound so that
results reduce definitionally (the fuel exceeds the value, so it never runs
out). -/
def natReprAux : Nat → Nat → Str
  | 0, _ => []
  | fuel + 1, n =>
    if n < 10 then [digitChar n]
    else natReprAux fuel (n / 10) ++ [digitChar (n % 10)]

/-- Model of Python `str(...)` on a nonnegative integer: decimal notation. -/
def natReprRec (n : Nat) : Str := natReprAux (n + 1) n

-- ---------------------------------------------------------------------------
-- Phase epochs (src/bot/cogs/action_queue.py, _phase_epoch / _until_to_epoch)
-- ---------------------------------------------------------------------------

/-- Model of the regex fallback in `ActionQueueCog._phase_epoch` and the first
regex in `_until_to_epoch`: a match of `([dn])(\s*)(\d+)` anchored at both
ends, against the stripped input (this function lowercases it itself, exactly
as `_phase_epoch` lowercases before its regex). -/
def shortEpoch (st : Str) : Option Int :=
  match toLowerList st with
  | [] => none
  | c :: rest =>
    if c = 'd' || c = 'n' then
      let ds := rest.dropWhile isWSCh
      if ds.isEmpty then none
      else if ds.all isDigitCh then
        some (((parseNat ds : Int) - 1) * 2 + (if c = 'd' then 0 else 1))
      else none
    else none

/-- Model of the second regex in `_until_to_epoch`: `(day|night)\s*(\d+)`
anchored at both ends, applied to an already stripped and lowercased token. -/
def longEpoch (t : Str) : Option Int :=
  if ("day".data).isPrefixOf t then
    let ds := (t.drop 3).dropWhile isWSCh
    if ¬ds.isEmpty ∧ ds.all isDigitCh then
      some (((parseNat ds : Int) - 1) * 2)
    else none
  else if ("night".data).isPrefixOf t then
    let ds := (t.drop 5).dropWhile isWSCh
    if ¬ds.isEmpty ∧ ds.all isDigitCh then
      some (((parseNat ds : Int) - 1) * 2 + 1)
    else none
  else none

/-- Model of `ActionQueueCog._phase_epoch`: convert a phase display string
like `Day 1` or `Night 2` (or a short token like `d1` / `n2`) to an integer
epoch; `none` when unparsable. -/
def phaseEpoch (s : Str) : Option Int :=
  if s.isEmpty then none
  else
    let st := stripList s
    match splitWS st with
    | p0 :: p1 :: _ =>
      if ¬p1.isEmpty ∧ p1.all isDigitCh then
        let typ := toLowerList p0
        some (((parseNat p1 : Int) - 1) * 2 +
          (if typ.head? = some 'd' then 0 else 1))
      else shortEpoch st
    | _ => shortEpoch st

/-- Model of `ActionQueueCog._until_to_epoch`: parse an `until` token such as
`n2`, `d3`, `day 2` into an epoch; `none` for `forever` or unparsable input. -/
def untilToEpoch (token : Str) : Option Int :=
  if token.isEmpty then none
  else
    let t := toLowerList (stripList token)
    if t = "forever".data then none
    else
      match shortEpoch t with
      | some e => some e
      | none => longEpoch t

-- ---------------------------------------------------------------------------
-- Association lists (model of Python dicts, preserving insertion order)
-- ---------------------------------------------------------------------------

/-- First value stored under a key (model of `dict.get`). -/
def assocFind {κ β : Type} [DecidableEq κ] (l : List (κ × β)) (k : κ) : Option β :=
  match l with
  | [] => none
  | kv :: rest => if kv.1 = k then some kv.2 else assocFind rest k

/-- Replace the value at the first occurrence of the key, or append the pair
(model of `dict[k] = v`, which keeps the position of an existing key). -/
def assocSet {κ β : Type} [DecidableEq κ] (l : List (κ × β)) (k : κ) (v : β) :
    List (κ × β) :=
  match l with
  | [] => [(k, v)]
  | kv :: rest => if kv.1 = k then (k, v) :: rest else kv :: assocSet rest k v

/-- Remove the entry stored under a key (model of `del dict[k]`). -/
def assocErase {κ β : Type} [DecidableEq κ] (l : List (κ × β)) (k : κ) :
    List (κ × β) :=
  match l with
  | [] => []
  | kv :: rest => if kv.1 = k then rest else kv :: assocErase rest k

-- ---------------------------------------------------------------------------
-- VisitCountCog (src/botV2/cogs/visit_count.py)
-- ---------------------------------------------------------------------------

/-- The four visit-counter kinds tracked per player. -/
inductive Kind | night | day | forced | stealth
deriving DecidableEq

/-- One player entry of the `counts` store: the four counters, stored as the
Python integers they are. -/
structure Counts where
  night : Int
  day : Int
  forced : Int
  stealth : Int
deriving DecidableEq

/-- The default entry inserted by `setdefault(k, dict(night=0, ...))`. -/
def zeroCounts : Counts := ⟨0, 0, 0, 0⟩

/-- Read one counter. -/
def getK : Kind → Counts → Int
  | .night, c => c.night
  | .day, c => c.day
  | .forced, c => c.forced
  | .stealth, c => c.stealth

/-- Write one counter. -/
def setK : Kind → Int → Counts → Counts
  | .night, v, c => { c with night := v }
  | .day, v, c => { c with day := v }
  | .forced, v, c => { c with forced := v }
  | .stealth, v, c => { c with stealth := v }

/-- One player entry of the `income` store. -/
structure Income where
  night_income : Int
  day_income : Int
deriving DecidableEq

/-- The persistent state of `VisitCountCog` (`self.data`), with the string
keys `f"{guild_id}_{member_id}"` modelled by the pair of ids they encode. -/
structure VisitData where
  counts : List ((Nat × Nat) × Counts)
  income : List ((Nat × Nat) × Income)
  phase : List (Nat × Str)
deriving DecidableEq

/-- Model of `VisitCountCog.get_counts` (missing entries read as zeros). -/
def getCounts (g m : Nat) (d : VisitData) : Counts :=
  (assocFind d.counts (g, m)).getD zeroCounts

/-- Map the `kind` strings used by callers onto counter fields; any other
string corresponds to no stored counter (`counts.get(kind, 0)` reads 0). -/
def kindOfStr (s : Str) : Option Kind :=
  if s = "night".data then some .night
  else if s = "day".data then some .day
  else if s = "forced".data then some .forced
  else if s = "stealth".data then some .stealth
  else none

/-- Model of `VisitCountCog.consume_visit` for a known kind: `setdefault` the
entry, then decrement iff the counter is positive, reporting success. -/
def consumeVisit (g m : Nat) (k : Kind) (d : VisitData) : Bool × VisitData :=
  let cs := (assocFind d.counts (g, m)).getD zeroCounts
  let cur := getK k cs
  if 0 < cur then
    (true, { d with counts := assocSet d.counts (g, m) (setK k (cur - 1) cs) })
  else
    (false, { d with counts := assocSet d.counts (g, m) cs })

/-- Model of `VisitCountCog.consume_visit` on a raw kind string: an unknown
kind reads `counts.get(kind, 0) = 0` and fails without decrementing. -/
def consumeVisitStr (g m : Nat) (s : Str) (d : VisitData) : Bool × VisitData :=
  match kindOfStr s with
  | some k => consumeVisit g m k d
  | none => (false, { d with counts := assocSet d.counts (g, m) ((assocFind d.counts (g, m)).getD zeroCounts) })

/-- Model of `VisitCountCog.add_visits` for a known kind. -/
def addVisits (g m : Nat) (k : Kind) (amount : Int) (d : VisitData) : VisitData :=
  let cs := (assocFind d.counts (g, m)).getD zeroCounts
  { d with counts := assocSet d.counts (g, m) (setK k (getK k cs + amount) cs) }

/-- Model of `VisitCountCog.add_visits` on a raw kind string; an unknown kind
raises `ValueError`, which every caller in the knock path swallows, so it is
a no-op at this level. -/
def addVisitsStr (g m : Nat) (s : Str) (amount : Int) (d : VisitData) : VisitData :=
  match kindOfStr s with
  | some k => addVisits g m k amount d
  | none => d

/-- Shared loop body of `VisitCountCog.reset_night` / `reset_day` (the two
functions are textual twins in the source): for an income entry of the guild,
`setdefault` the counts entry to zeros and overwrite the selected counter
with the configured income. -/
def incomeFoldFn (g : Nat) (k : Kind) (getI : Income → Int)
    (cs : List ((Nat × Nat) × Counts)) (ki : (Nat × Nat) × Income) :
    List ((Nat × Nat) × Counts) :=
  if ki.1.1 = g then
    assocSet cs ki.1 (setK k (getI ki.2) ((assocFind cs ki.1).getD zeroCounts))
  else cs

/-- Model of `VisitCountCog.reset_night`: for every stored income entry of the
guild, set that player night counter to the configured night income
(inserting a zero counts entry first, as `setdefault` does). -/
def resetNight (g : Nat) (d : VisitData) : VisitData :=
  { d with counts := d.income.foldl (incomeFoldFn g .night Income.night_income) d.counts }

/-- Model of `VisitCountCog.reset_day`, symmetric to `resetNight`. -/
def resetDay (g : Nat) (d : VisitData) : VisitData :=
  { d with counts := d.income.foldl (incomeFoldFn g .day Income.day_income) d.counts }

/-- Model of `VisitCountCog.set_phase` (only called with `night` / `day`). -/
def setPhaseData (g : Nat) (p : Str) (d : VisitData) : VisitData :=
  { d with phase := assocSet d.phase g p }

/-- Model of the inventory refill dispatch in `PhasesCog.phase_set`
(src/bot/cogs/phases.py lines 296-307): on a transition to `night` the night
counters are refilled and the stored phase updated, symmetrically for `day`,
and any other validated token touches the visit data not at all. -/
def refillForPhase (tok : Str) (g : Nat) (d : VisitData) : VisitData :=
  if tok = "night".data then setPhaseData g ("night".data) (resetNight g d)
  else if tok = "day".data then setPhaseData g ("day".data) (resetDay g d)
  else d

-- ---------------------------------------------------------------------------
-- KnocksCog, enchanted knock path (src/bot/cogs/knocks.py lines 239-291)
-- ---------------------------------------------------------------------------

/-- Outcome of an enchanted knock request. -/
inductive KnockOutcome
  | insufficientTokens
  | executed
  | moveFailed
deriving DecidableEq

/-- Model of the enchantment consume loop: every enchant token is attempted
(the loop does not stop at the first failure), an overseer consumes nothing,
and the request is `ok` only if every attempt succeeded. -/
def consumeEnchants (overseer : Bool) (g m : Nat) (enchants : List Str)
    (d : VisitData) : Bool × VisitData :=
  enchants.foldl (fun acc e =>
    let got := if overseer then (true, acc.2) else consumeVisitStr g m e acc.2
    (acc.1 && got.1, got.2)) (true, d)

/-- Model of `KnocksCog.knock` with enchantments present (`moveOk` stands for
the success of the channel-permission move, an external effect): on a failed
consume loop the command reports the missing enchantments and returns with no
move and no refund; on a successful loop the move runs, and only a failed
move refunds the consumed enchantments (overseers consumed nothing). -/
def knockEnchanted (overseer moveOk : Bool) (g m : Nat) (enchants : List Str)
    (d : VisitData) : KnockOutcome × VisitData :=
  let r := consumeEnchants overseer g m enchants d
  if !r.1 then (.insufficientTokens, r.2)
  else if moveOk then (.executed, r.2)
  else if overseer then (.moveFailed, r.2)
  else (.moveFailed, enchants.foldl (fun dd e => addVisitsStr g m e 1 dd) r.2)

-- ---------------------------------------------------------------------------
-- PhasesCog (src/bot/cogs/phases.py)
-- ---------------------------------------------------------------------------

/-- The closed set of valid phase tokens (`PHASE_ORDER`). -/
def PHASE_ORDER : List Str :=
  ["pregame".data, "night".data, "day".data, "postgame".data]

/-- One guild record of `PhasesCog.phases`. -/
structure PhaseRec where
  phase : Str
  count : Nat
deriving DecidableEq

/-- Model of `PhasesCog._set_phase_for_guild`: set the token and update the
counter (cold start to 1, increment exactly on night to day, hold otherwise;
non-day/night tokens reset the counter to 1). -/
def setPhaseForGuild (old : PhaseRec) (tok : Str) : PhaseRec :=
  let phase := if tok.isEmpty then "pregame".data else toLowerList tok
  let newCount :=
    if ¬(phase = "day".data ∨ phase = "night".data) then 1
    else if ¬(old.phase = "day".data ∨ old.phase = "night".data) then 1
    else if old.phase = "night".data ∧ phase = "day".data then old.count + 1
    else old.count
  ⟨phase, newCount⟩

/-- Model of the `phase set` command (`PhasesCog.phase_set`): lowercase the
argument, reject anything outside `PHASE_ORDER` without touching the stored
record, otherwise delegate to `setPhaseForGuild`. -/
def phaseSetCmd (old : PhaseRec) (tok : Str) : Option PhaseRec :=
  let p := toLowerList tok
  if p ∈ PHASE_ORDER then some (setPhaseForGuild old p) else none

/-- Model of Python `str.title` for the single lowercase words used here. -/
def titleize : Str → Str
  | [] => []
  | c :: cs => (if 97 ≤ c.toNat && c.toNat ≤ 122 then Char.ofNat (c.toNat - 32) else c) :: cs

/-- Model of `PhasesCog._get_phase_for_guild`: the display string, `Day 2` /
`Night 1` for day/night and the bare token otherwise. -/
def displayPhase (tok : Str) (count : Nat) : Str :=
  if tok = "day".data ∨ tok = "night".data then
    titleize tok ++ [' '] ++ natReprRec count
  else tok

-- ---------------------------------------------------------------------------
-- Roleblock registry and expiry sweep (src/bot/cogs/action_queue.py)
-- ---------------------------------------------------------------------------

/-- One stored block entry (ability roleblock or location visit block): the
`until` token and the boundary policy, either possibly absent from the stored
dict. -/
structure RoleBlock where
  untilTok : Option Str
  boundary : Option Str
deriving DecidableEq

/-- The `self.roleblocks` store: keys of the form `rcid:ABILITY` become the
pair key of `abilityBlocks`, plain channel keys carrying a `visit_block`
sub-dict become `visitBlocks` (a channel entry whose `visit_block` was
deleted behaves in every observable way like an absent entry and is
represented by absence). -/
structure BlockRegistry where
  abilityBlocks : List ((Nat × Str) × RoleBlock)
  visitBlocks : List (Nat × RoleBlock)
deriving DecidableEq

/-- Model of the per-entry removal test of
`ActionQueueCog.process_phase_change`: an entry is swept exactly when its
`until` is present, nonempty, not `forever` and parsable, and the new epoch
has passed it under its boundary policy (`end` when absent). -/
def blockRemoved (newEpoch : Int) (b : RoleBlock) : Bool :=
  match b.untilTok with
  | none => false
  | some u =>
    if u.isEmpty then false
    else if u = "forever".data then false
    else
      match untilToEpoch u with
      | none => false
      | some ue =>
        let bdy := b.boundary.getD ("end".data)
        (decide (bdy = "end".data) && decide (ue < newEpoch)) ||
          (decide (bdy = "beginning".data) && decide (ue ≤ newEpoch))

/-- Model of `ActionQueueCog.process_phase_change`: no sweep at all when the
new phase string has no epoch, otherwise drop every removed entry. -/
def processPhaseChange (newPhase : Str) (reg : BlockRegistry) : BlockRegistry :=
  match phaseEpoch newPhase with
  | none => reg
  | some e =>
    { abilityBlocks := reg.abilityBlocks.filter (fun kb => !blockRemoved e kb.2),
      visitBlocks := reg.visitBlocks.filter (fun kb => !blockRemoved e kb.2) }

-- ---------------------------------------------------------------------------
-- OS pending-ability queue (src/bot/cogs/action_queue.py)
-- ---------------------------------------------------------------------------

/-- One pending ability entry (an element of `self.pending_abilities`); the
`timestamp` is the logical submission time (strictly increasing submissions),
the remaining fields are stored exactly as the `use` command records them.
The `status` field always holds `pending` for queued entries, so it is not
represented; processing marks entries by removing them from the queue. -/
structure Entry where
  channelId : Nat
  ability : Str
  category : Option Str
  team : Option Str
  timestamp : Nat
  description : Str
  userId : Nat
deriving DecidableEq

/-- Model of the `priority` table of `os_abilities` / `process_os`
(`priority.get(category, 99)`, with a missing category reading 99). -/
def categoryPriority (c : Option Str) : Nat :=
  match c with
  | none => 99
  | some s =>
    if s = "Manipulation".data then 1
    else if s = "Blocking".data then 2
    else if s = "Protection".data then 3
    else if s = "Curing".data then 4
    else if s = "Lethal".data then 5
    else if s = "Other".data then 6
    else if s = "Transport".data then 7
    else 99

/-- Model of `str(item.get("category")).lower() == "lethal"`; a missing
category prints as `None`, which is never `lethal`. -/
def isLethalCat (c : Option Str) : Bool :=
  match c with
  | none => false
  | some s => toLowerList s = "lethal".data

/-- Model of `(item.get("team") or "?").lower()`. -/
def effectiveTeam (t : Option Str) : Str :=
  match t with
  | none => "?".data
  | some s => if s.isEmpty then "?".data else toLowerList s

/-- Model of the team tie-break index: `team_order.index(team)` with 99 for a
team absent from the applicable list (Lethal uses sublime, shadow, dark,
neutral; every other category uses dark, rk, sublime, neutral). -/
def teamIdx (c : Option Str) (t : Option Str) : Nat :=
  let team := effectiveTeam t
  if isLethalCat c then
    if team = "sublime".data then 0
    else if team = "shadow".data then 1
    else if team = "dark".data then 2
    else if team = "neutral".data then 3
    else 99
  else
    if team = "dark".data then 0
    else if team = "rk".data then 1
    else if team = "sublime".data then 2
    else if team = "neutral".data then 3
    else 99

/-- Model of `sort_key`: the composite `(priority, team index, timestamp)`. -/
def sortKey (e : Entry) : Nat × Nat × Nat :=
  (categoryPriority e.category, teamIdx e.category e.team, e.timestamp)

/-- Lexicographic comparison of the composite sort keys. -/
def entryLE (a b : Entry) : Prop :=
  (sortKey a).1 < (sortKey b).1 ∨
    ((sortKey a).1 = (sortKey b).1 ∧
      ((sortKey a).2.1 < (sortKey b).2.1 ∨
        ((sortKey a).2.1 = (sortKey b).2.1 ∧ (sortKey a).2.2 ≤ (sortKey b).2.2)))

instance : DecidableRel entryLE := fun a b => by
  unfold entryLE
  infer_instance

/-- Model of `sorted(self.pending_abilities, key=sort_key)`: CPython sorted is
the stable sort by the key order, which an insertion sort over the same total
preorder reproduces exactly. -/
def sortedPending (l : List Entry) : List Entry :=
  List.insertionSort entryLE l

/-- Per-location visit store of the action queue
(`self.visits : channel_id -> type -> uses-string`); only the four type keys
ever occur, each holding a raw uses string such as `2n`. -/
structure ChannelVisits where
  regular : Option Str
  stealth : Option Str
  forced : Option Str
  both : Option Str
deriving DecidableEq

/-- An empty per-channel dict (falsy in the `if self.visits[ch_id]` test). -/
def cvIsEmpty (cv : ChannelVisits) : Bool :=
  cv.regular.isNone && cv.stealth.isNone && cv.forced.isNone && cv.both.isNone

/-- Model of consuming one use from a stored uses string: a leading digit run
is decremented (`re.sub` keeps the suffix); reaching zero, or a value with no
leading digits, deletes the stored entry (`none`). -/
def updateVal (v : Str) : Option Str :=
  let ds := v.takeWhile isDigitCh
  if ds.isEmpty then none
  else
    let cnt : Int := (parseNat ds : Int) - 1
    if cnt ≤ 0 then none
    else some (natReprRec cnt.toNat ++ v.dropWhile isDigitCh)

/-- Model of the per-entry consumption loop of `process_os`: try the type
keys in the fixed preference order regular, stealth, forced, both, and
consume from the first one present. -/
def consumeChannelVisit (cv : ChannelVisits) : ChannelVisits :=
  match cv.regular with
  | some v => { cv with regular := updateVal v }
  | none =>
    match cv.stealth with
    | some v => { cv with stealth := updateVal v }
    | none =>
      match cv.forced with
      | some v => { cv with forced := updateVal v }
      | none =>
        match cv.both with
        | some v => { cv with both := updateVal v }
        | none => cv

/-- The visits store of the action queue. -/
abbrev VisitsMap := List (Nat × ChannelVisits)

/-- Model of the visit-consumption step for one entry: a location with no
inventory entry (or an empty one) is left alone and is not an error. -/
def visitStep (vm : VisitsMap) (ch : Nat) : VisitsMap :=
  match assocFind vm ch with
  | none => vm
  | some cv => if cvIsEmpty cv then vm else assocSet vm ch (consumeChannelVisit cv)

/-- Model of the ability-roleblock test of `process_os`
(`f"{ch_id}:{ability}" in self.roleblocks`). -/
def isAbilityBlocked (reg : BlockRegistry) (e : Entry) : Bool :=
  (assocFind reg.abilityBlocks (e.channelId, e.ability)).isSome

/-- Model of the location visit-block test of `process_os`
(`self.roleblocks.get(str(ch_id), {}).get("visit_block")`). -/
def isVisitBlockedOn (reg : BlockRegistry) (e : Entry) : Bool :=
  (assocFind reg.visitBlocks e.channelId).isSome

/-- An entry is skipped when either block test fires. -/
def entryBlocked (reg : BlockRegistry) (e : Entry) : Bool :=
  isAbilityBlocked reg e || isVisitBlockedOn reg e

/-- The skip reason recorded by `process_os` (ability blocks are checked
first). -/
def skipReason (reg : BlockRegistry) (e : Entry) : Str :=
  if isAbilityBlocked reg e then "ability_blocked".data else "visit_blocked".data

/-- State consumed by a `processos` run. -/
structure OsState where
  pending : List Entry
  blocks : BlockRegistry
  visits : VisitsMap
deriving DecidableEq

/-- Result of a `processos` run. -/
structure OsResult where
  applied : List Entry
  skipped : List (Entry × Str)
  pending : List Entry
  visits : VisitsMap
deriving DecidableEq

/-- One iteration of the `process_os` loop over the ordered entries:
blocked entries are appended to `skipped` (ability blocks first), anything
else consumes a visit best-effort and is appended to `processed`. -/
def osStep (reg : BlockRegistry) (acc : VisitsMap × List Entry × List (Entry × Str))
    (e : Entry) : VisitsMap × List Entry × List (Entry × Str) :=
  if isAbilityBlocked reg e then
    (acc.1, acc.2.1, acc.2.2 ++ [(e, "ability_blocked".data)])
  else if isVisitBlockedOn reg e then
    (acc.1, acc.2.1, acc.2.2 ++ [(e, "visit_blocked".data)])
  else
    (visitStep acc.1 e.channelId, acc.2.1 ++ [e], acc.2.2)

/-- Model of `ActionQueueCog.process_os`: order the queue, run the loop, and
keep exactly the entries not marked processed (an entry value is marked
processed precisely when the loop appended it to the processed list). -/
def processOs (st : OsState) : OsResult :=
  let ordered := sortedPending st.pending
  let res := ordered.foldl (osStep st.blocks) (st.visits, [], [])
  { applied := res.2.1,
    skipped := res.2.2,
    pending := st.pending.filter (fun p => decide (p ∉ res.2.1)),
    visits := res.1 }

-- ---------------------------------------------------------------------------
-- Lemmas
-- ---------------------------------------------------------------------------

theorem digit_not_ws {c : Char} (h : isDigitCh c = true) : isWSCh c = false := by
  simp only [isDigitCh, Bool.and_eq_true, decide_eq_true_eq] at h
  simp only [isWSCh, Bool.or_eq_false_iff, decide_eq_false_iff_not]
  omega

theorem toLowerCh_digit {c : Char} (h : isDigitCh c = true) : toLowerCh c = c := by
  simp only [isDigitCh, Bool.and_eq_true, decide_eq_true_eq] at h
  simp only [toLowerCh, Bool.and_eq_true, decide_eq_true_eq]
  rw [if_neg]
  omega

theorem toLowerList_digits {s : Str} (h : ∀ c ∈ s, isDigitCh c = true) :
    toLowerList s = s := by
  induction s with
  | nil => rfl
  | cons c cs ih =>
    simp only [toLowerList, List.map_cons]
    rw [toLowerCh_digit (h c (by simp))]
    have : toLowerList cs = cs := ih (fun x hx => h x (by simp [hx]))
    simpa [toLowerList] using this

theorem digitVal_digitChar {d : Nat} (h : d < 10) :
    digitVal (digitChar d) = d := by
  interval_cases d <;> decide

theorem isDigitCh_digitChar {d : Nat} (h : d < 10) :
    isDigitCh (digitChar d) = true := by
  interval_cases d <;> decide

theorem natReprAux_ne_nil (fuel n : Nat) (h : n < fuel) : natReprAux fuel n ≠ [] := by
  cases fuel with
  | zero => omega
  | succ m =>
    unfold natReprAux
    split <;> simp

theorem natReprRec_ne_nil (n : Nat) : natReprRec n ≠ [] :=
  natReprAux_ne_nil (n + 1) n (by omega)

theorem natReprAux_all_digit (n : Nat) :
    ∀ fuel, n < fuel → ∀ c ∈ natReprAux fuel n, isDigitCh c = true := by
  induction n using Nat.strong_induction_on with
  | _ n ih =>
    intro fuel hfuel c hc
    cases fuel with
    | zero => omega
    | succ m =>
      unfold natReprAux at hc
      split at hc
      · simp only [List.mem_singleton] at hc
        subst hc
        exact isDigitCh_digitChar (by omega)
      · rename_i h
        simp only [List.mem_append, List.mem_singleton] at hc
        rcases hc with hc | hc
        · exact ih (n / 10) (Nat.div_lt_self (by omega) (by omega)) m
            (by omega) c hc
        · subst hc
          exact isDigitCh_digitChar (Nat.mod_lt _ (by omega))

theorem natReprRec_all_digit (n : Nat) :
    ∀ c ∈ natReprRec n, isDigitCh c = true :=
  natReprAux_all_digit n (n + 1) (by omega)

theorem parseNat_append_singleton (l : Str) (c : Char) :
    parseNat (l ++ [c]) = parseNat l * 10 + digitVal c := by
  simp [parseNat, List.foldl_append]

theorem parseNat_natReprAux (n : Nat) :
    ∀ fuel, n < fuel → parseNat (natReprAux fuel n) = n := by
  induction n using Nat.strong_induction_on with
  | _ n ih =>
    intro fuel hfuel
    cases fuel with
    | zero => omega
    | succ m =>
      unfold natReprAux
      split
      · rename_i h
        simp [parseNat, digitVal_digitChar h]
      · rename_i h
        rw [parseNat_append_singleton,
          ih (n / 10) (Nat.div_lt_self (by omega) (by omega)) m (by omega),
          digitVal_digitChar (Nat.mod_lt _ (by omega))]
        omega

theorem parseNat_natReprRec (n : Nat) : parseNat (natReprRec n) = n :=
  parseNat_natReprAux n (n + 1) (by omega)

theorem splitWSAux_cons_notWS {c : Char} (cs acc : List Char)
    (h : isWSCh c = false) :
    splitWSAux (c :: cs) acc = splitWSAux cs (c :: acc) := by
  simp [splitWSAux, h]

theorem splitWSAux_cons_ws {c : Char} (cs acc : List Char)
    (h : isWSCh c = true) (hacc : acc ≠ []) :
    splitWSAux (c :: cs) acc = acc.reverse :: splitWSAux cs [] := by
  simp [splitWSAux, h, hacc]

theorem splitWSAux_all_notWS (l : Str) (acc : List Char)
    (hl : l ≠ []) (h : ∀ c ∈ l, isWSCh c = false) :
    splitWSAux l acc = [acc.reverse ++ l] := by
  induction l generalizing acc with
  | nil => exact absurd rfl hl
  | cons c cs ih =>
    rw [splitWSAux_cons_notWS cs acc (h c (by simp))]
    cases cs with
    | nil => simp [splitWSAux]
    | cons d ds =>
      rw [ih (c :: acc) (by simp) (fun x hx => h x (by simp [hx]))]
      simp

theorem stripList_cons_concat (a b : Char) (m : Str)
    (ha : isWSCh a = false) (hb : isWSCh b = false) :
    stripList (a :: (m ++ [b])) = a :: (m ++ [b]) := by
  unfold stripList
  rw [List.dropWhile_cons_of_neg (by simp [ha])]
  rw [show (a :: (m ++ [b])).reverse = b :: (m.reverse ++ [a]) by simp]
  rw [List.dropWhile_cons_of_neg (by simp [hb])]
  simp

/-- A nonempty string of digit characters, with a leading non-whitespace
character prepended, survives `strip` intact. -/
theorem stripList_word_digits (w : Str) (ds : Str)
    (hds : ds ≠ []) (hdig : ∀ c ∈ ds, isDigitCh c = true)
    (a : Char) (ha : isWSCh a = false) :
    stripList (a :: (w ++ ds)) = a :: (w ++ ds) := by
  have hlast := List.dropLast_append_getLast hds
  have hb : isWSCh (ds.getLast hds) = false :=
    digit_not_ws (hdig _ (List.getLast_mem hds))
  calc stripList (a :: (w ++ ds))
      = stripList (a :: ((w ++ ds.dropLast) ++ [ds.getLast hds])) := by
        rw [show (w ++ ds.dropLast) ++ [ds.getLast hds] = w ++ ds by
          rw [List.append_assoc, hlast]]
    _ = a :: ((w ++ ds.dropLast) ++ [ds.getLast hds]) :=
        stripList_cons_concat _ _ _ ha hb
    _ = a :: (w ++ ds) := by rw [List.append_assoc, hlast]


theorem assocFind_set_self {κ β : Type} [DecidableEq κ]
    (l : List (κ × β)) (k : κ) (v : β) : assocFind (assocSet l k v) k = some v := by
  induction l with
  | nil => simp [assocSet, assocFind]
  | cons kv rest ih =>
    by_cases h : kv.1 = k
    · simp [assocSet, assocFind, h]
    · simp [assocSet, assocFind, h, ih]

theorem assocFind_set_ne {κ β : Type} [DecidableEq κ]
    (l : List (κ × β)) (k k' : κ) (v : β) (h : k' ≠ k) :
    assocFind (assocSet l k v) k' = assocFind l k' := by
  have hkk : ¬k = k' := fun hh => h hh.symm
  induction l with
  | nil => simp [assocSet, assocFind, hkk]
  | cons kv rest ih =>
    by_cases hk : kv.1 = k
    · have hk' : ¬kv.1 = k' := by rw [hk]; exact hkk
      simp [assocSet, assocFind, hk, hk', hkk]
    · simp only [assocSet, if_neg hk, assocFind]
      rw [ih]

theorem assocFind_some_mem {κ β : Type} [DecidableEq κ]
    {l : List (κ × β)} {k : κ} {v : β} (h : assocFind l k = some v) :
    (k, v) ∈ l := by
  induction l with
  | nil => simp [assocFind] at h
  | cons kv rest ih =>
    rw [assocFind] at h
    split at h
    · rename_i hk
      have hv : kv.2 = v := Option.some.inj h
      have heq : (k, v) = kv := by
        rw [← hk, ← hv]
      rw [heq]
      exact List.mem_cons_self _ _
    · exact List.mem_cons_of_mem _ (ih h)

theorem assocFind_none_not_mem {κ β : Type} [DecidableEq κ]
    {l : List (κ × β)} {k : κ} (h : assocFind l k = none) :
    ∀ v, (k, v) ∉ l := by
  induction l with
  | nil => simp
  | cons kv rest ih =>
    rw [assocFind] at h
    split at h
    · exact absurd h (by simp)
    · rename_i hk
      intro v hv
      rcases List.mem_cons.mp hv with hv | hv
      · exact hk (by rw [← hv])
      · exact ih h v hv

theorem getCounts_after_set (g m : Nat) (d : VisitData) (cs : Counts)
    (rest₁ : List ((Nat × Nat) × Income)) (rest₂ : List (Nat × Str)) :
    getCounts g m ⟨assocSet d.counts (g, m) cs, rest₁, rest₂⟩ = cs := by
  simp [getCounts, assocFind_set_self]

/-- C6: for every actor, kind and starting value, `consume_visit` decrements
by exactly one and returns true when the counter is positive, returns false
leaving all counters of the actor unchanged when it is zero, and never drives
a nonnegative counter below zero. -/
theorem consume_visit_atomic (d : VisitData) (g m : Nat) (k : Kind) :
    (0 < getK k (getCounts g m d) →
      (consumeVisit g m k d).1 = true ∧
      getCounts g m (consumeVisit g m k d).2 =
        setK k (getK k (getCounts g m d) - 1) (getCounts g m d)) ∧
    (getK k (getCounts g m d) = 0 →
      (consumeVisit g m k d).1 = false ∧
      getCounts g m (consumeVisit g m k d).2 = getCounts g m d) ∧
    (0 ≤ getK k (getCounts g m d) →
      0 ≤ getK k (getCounts g m (consumeVisit g m k d).2)) := by
  refine ⟨fun hpos => ?_, fun hzero => ?_, fun hnn => ?_⟩
  · rw [show consumeVisit g m k d =
        (true, ⟨assocSet d.counts (g, m)
          (setK k (getK k (getCounts g m d) - 1) (getCounts g m d)),
          d.income, d.phase⟩) by
      simp only [consumeVisit, getCounts] at hpos ⊢
      rw [if_pos hpos]]
    exact ⟨rfl, getCounts_after_set g m d _ _ _⟩
  · rw [show consumeVisit g m k d =
        (false, ⟨assocSet d.counts (g, m) (getCounts g m d), d.income, d.phase⟩) by
      simp only [consumeVisit, getCounts] at hzero ⊢
      rw [if_neg (by omega)]]
    exact ⟨rfl, getCounts_after_set g m d _ _ _⟩
  · by_cases hpos : 0 < getK k (getCounts g m d)
    · rw [show consumeVisit g m k d =
          (true, ⟨assocSet d.counts (g, m)
            (setK k (getK k (getCounts g m d) - 1) (getCounts g m d)),
            d.income, d.phase⟩) by
        simp only [consumeVisit, getCounts] at hpos ⊢
        rw [if_pos hpos]]
      rw [getCounts_after_set g m d _ _ _]
      cases k <;> simp [getK, setK] at hpos ⊢ <;> omega
    · rw [show consumeVisit g m k d =
          (false, ⟨assocSet d.counts (g, m) (getCounts g m d), d.income, d.phase⟩) by
        simp only [consumeVisit, getCounts] at hpos ⊢
        rw [if_neg hpos]]
      rw [getCounts_after_set g m d _ _ _]
      exact hnn

/-- Witness for `consume_visit_atomic` at a concrete store. -/
theorem consume_visit_atomic_witness :
    (consumeVisit 1 7 Kind.night ⟨[((1, 7), ⟨2, 0, 0, 0⟩)], [], []⟩).1 = true ∧
    getCounts 1 7 (consumeVisit 1 7 Kind.night ⟨[((1, 7), ⟨2, 0, 0, 0⟩)], [], []⟩).2 =
      ⟨1, 0, 0, 0⟩ ∧
    (consumeVisit 1 7 Kind.day ⟨[((1, 7), ⟨2, 0, 0, 0⟩)], [], []⟩).1 = false := by
  have h1 := (consume_visit_atomic ⟨[((1, 7), ⟨2, 0, 0, 0⟩)], [], []⟩ 1 7 Kind.night).1
    (by decide)
  have h2 := ((consume_visit_atomic ⟨[((1, 7), ⟨2, 0, 0, 0⟩)], [], []⟩ 1 7 Kind.day).2).1
    (by decide)
  refine ⟨h1.1, ?_, h2.1⟩
  rw [h1.2]
  decide

/-- Counter rule of `_set_phase_for_guild` for a `day` target. -/
theorem setPhase_count_day (st : PhaseRec) :
    (setPhaseForGuild st ("day".data)).count =
      (if ¬(st.phase = "day".data ∨ st.phase = "night".data) then 1
       else if st.phase = "night".data then st.count + 1
       else st.count) := by
  simp only [setPhaseForGuild,
    show (("day".data : Str).isEmpty) = false from rfl,
    Bool.false_eq_true, if_false,
    show toLowerList ("day".data) = "day".data from by decide]
  simp

/-- Counter rule of `_set_phase_for_guild` for a `night` target. -/
theorem setPhase_count_night (st : PhaseRec) :
    (setPhaseForGuild st ("night".data)).count =
      (if ¬(st.phase = "day".data ∨ st.phase = "night".data) then 1
       else st.count) := by
  simp only [setPhaseForGuild,
    show (("night".data : Str).isEmpty) = false from rfl,
    Bool.false_eq_true, if_false,
    show toLowerList ("night".data) = "night".data from by decide]
  simp

/-- C4: for every `phase set` operation, a day or night target yields cycle
counter 1 when the previous token was not day/night, previous + 1 exactly on
the night to day transition, and the previous counter on every other
day/night transition (day to night and same-token transitions hold the
counter), while a target outside the closed token set pregame, day, night,
postgame is rejected without touching the stored phase record. -/
theorem phase_set_counter (st : PhaseRec) (tok : Str) :
    (toLowerList tok = "day".data →
      phaseSetCmd st tok = some (setPhaseForGuild st ("day".data)) ∧
      (setPhaseForGuild st ("day".data)).count =
        (if ¬(st.phase = "day".data ∨ st.phase = "night".data) then 1
         else if st.phase = "night".data then st.count + 1
         else st.count)) ∧
    (toLowerList tok = "night".data →
      phaseSetCmd st tok = some (setPhaseForGuild st ("night".data)) ∧
      (setPhaseForGuild st ("night".data)).count =
        (if ¬(st.phase = "day".data ∨ st.phase = "night".data) then 1
         else st.count)) ∧
    (toLowerList tok ∉ PHASE_ORDER → phaseSetCmd st tok = none) := by
  refine ⟨fun h => ⟨?_, setPhase_count_day st⟩,
    fun h => ⟨?_, setPhase_count_night st⟩, fun hout => ?_⟩
  · simp only [phaseSetCmd, h]
    rw [if_pos (by decide)]
  · simp only [phaseSetCmd, h]
    rw [if_pos (by decide)]
  · simp only [phaseSetCmd]
    rw [if_neg hout]

/-- Witness for `phase_set_counter`: night 2 advanced to day becomes day 3,
and an unknown token is rejected. -/
theorem phase_set_counter_witness :
    phaseSetCmd ⟨"night".data, 2⟩ ("Day".data) =
      some (setPhaseForGuild ⟨"night".data, 2⟩ ("day".data)) ∧
    (setPhaseForGuild ⟨"night".data, 2⟩ ("day".data)).count = 3 ∧
    phaseSetCmd ⟨"night".data, 2⟩ ("noon".data) = none := by
  have h := phase_set_counter ⟨"night".data, 2⟩ ("Day".data)
  have h2 := phase_set_counter ⟨"night".data, 2⟩ ("noon".data)
  have hc := h.1 (by decide)
  refine ⟨hc.1, ?_, h2.2.2 (by decide)⟩
  rw [hc.2]
  decide

theorem incomeFold_not_mem (g : Nat) (k : Kind) (getI : Income → Int)
    (inc : List ((Nat × Nat) × Income)) :
    ∀ (cs : List ((Nat × Nat) × Counts)) (key : Nat × Nat),
      (∀ i, (key, i) ∉ inc) →
      assocFind (inc.foldl (incomeFoldFn g k getI) cs) key = assocFind cs key := by
  induction inc with
  | nil => intro cs key _; rfl
  | cons ki rest ih =>
    intro cs key h
    have hk : ki.1 ≠ key := by
      intro he
      exact h ki.2 (by rw [← he]; exact List.mem_cons_self _ _)
    have hstep : assocFind (incomeFoldFn g k getI cs ki) key = assocFind cs key := by
      unfold incomeFoldFn
      split
      · exact assocFind_set_ne _ _ _ _ (fun hh => hk hh.symm)
      · rfl
    rw [List.foldl_cons,
      ih (incomeFoldFn g k getI cs ki) key (fun i hi => h i (List.mem_cons_of_mem _ hi)),
      hstep]

theorem incomeFold_mem (g : Nat) (k : Kind) (getI : Income → Int)
    (inc : List ((Nat × Nat) × Income)) :
    ∀ (cs : List ((Nat × Nat) × Counts)) (m : Nat) (i : Income),
      (inc.map Prod.fst).Nodup → ((g, m), i) ∈ inc →
      assocFind (inc.foldl (incomeFoldFn g k getI) cs) (g, m) =
        some (setK k (getI i) ((assocFind cs (g, m)).getD zeroCounts)) := by
  induction inc with
  | nil => intro cs m i _ hmem; cases hmem
  | cons ki rest ih =>
    intro cs m i hnd hmem
    rw [List.map_cons, List.nodup_cons] at hnd
    rcases List.mem_cons.mp hmem with he | hmem'
    · have hrest : ∀ j, ((g, m), j) ∉ rest := by
        intro j hj
        have hmap : ((g, m), j).1 ∈ rest.map Prod.fst := List.mem_map_of_mem _ hj
        have hk1 : ki.1 = (g, m) := by rw [← he]
        exact hnd.1 (by rw [hk1]; exact hmap)
      have hstep : incomeFoldFn g k getI cs ki =
          assocSet cs (g, m) (setK k (getI i) ((assocFind cs (g, m)).getD zeroCounts)) := by
        rw [← he]
        unfold incomeFoldFn
        rw [if_pos rfl]
      rw [List.foldl_cons, hstep,
        incomeFold_not_mem g k getI rest _ (g, m) hrest,
        assocFind_set_self]
    · have hk : ki.1 ≠ (g, m) := by
        intro he2
        have hmap : ((g, m), i).1 ∈ rest.map Prod.fst := List.mem_map_of_mem _ hmem'
        exact hnd.1 (by rw [he2]; exact hmap)
      have hstep : assocFind (incomeFoldFn g k getI cs ki) (g, m) = assocFind cs (g, m) := by
        unfold incomeFoldFn
        split
        · exact assocFind_set_ne _ _ _ _ (fun hh => hk hh.symm)
        · rfl
      rw [List.foldl_cons, ih _ m i hnd.2 hmem', hstep]

/-- C5 amended: the refill for token night sets the night counter of every
actor of the guild that has a stored income record to exactly the configured
night income (regardless of the previous value, and leaving the other three
counters as they were), symmetrically for day; an actor with stored counters
but no stored income record is left completely untouched by the refill (the
claimed reset to the default income 0 does not happen); any token other than
night or day changes nothing at all. -/
theorem refill_sets_income (d : VisitData) (g m : Nat)
    (hnd : (d.income.map Prod.fst).Nodup) :
    (∀ inc, assocFind d.income (g, m) = some inc →
      getCounts g m (resetNight g d) = setK .night inc.night_income (getCounts g m d) ∧
      getCounts g m (resetDay g d) = setK .day inc.day_income (getCounts g m d)) ∧
    (assocFind d.income (g, m) = none →
      getCounts g m (resetNight g d) = getCounts g m d ∧
      getCounts g m (resetDay g d) = getCounts g m d) ∧
    (∀ tok, tok ≠ "night".data → tok ≠ "day".data → refillForPhase tok g d = d) := by
  refine ⟨fun inc hfind => ?_, fun hnone => ?_, fun tok h1 h2 => ?_⟩
  · have hmem := assocFind_some_mem hfind
    constructor
    · show (assocFind (d.income.foldl (incomeFoldFn g .night Income.night_income) d.counts)
        (g, m)).getD zeroCounts = _
      rw [incomeFold_mem g .night Income.night_income d.income d.counts m inc hnd hmem]
      rfl
    · show (assocFind (d.income.foldl (incomeFoldFn g .day Income.day_income) d.counts)
        (g, m)).getD zeroCounts = _
      rw [incomeFold_mem g .day Income.day_income d.income d.counts m inc hnd hmem]
      rfl
  · have hnm := assocFind_none_not_mem hnone
    constructor
    · show (assocFind (d.income.foldl (incomeFoldFn g .night Income.night_income) d.counts)
        (g, m)).getD zeroCounts = _
      rw [incomeFold_not_mem g .night Income.night_income d.income d.counts (g, m) hnm]
      rfl
    · show (assocFind (d.income.foldl (incomeFoldFn g .day Income.day_income) d.counts)
        (g, m)).getD zeroCounts = _
      rw [incomeFold_not_mem g .day Income.day_income d.income d.counts (g, m) hnm]
      rfl
  · unfold refillForPhase
    rw [if_neg h1, if_neg h2]

/-- Witness for `refill_sets_income` at a concrete store with one income
entry: the night counter becomes the income 4 (it was 5), the other counters
survive, and the pregame token leaves everything alone. -/
theorem refill_sets_income_witness :
    getCounts 1 7 (resetNight 1 ⟨[((1, 7), ⟨5, 1, 2, 3⟩)], [((1, 7), ⟨4, 9⟩)], []⟩) =
      ⟨4, 1, 2, 3⟩ ∧
    refillForPhase ("pregame".data) 1 ⟨[((1, 7), ⟨5, 1, 2, 3⟩)], [((1, 7), ⟨4, 9⟩)], []⟩ =
      ⟨[((1, 7), ⟨5, 1, 2, 3⟩)], [((1, 7), ⟨4, 9⟩)], []⟩ := by
  have h := refill_sets_income ⟨[((1, 7), ⟨5, 1, 2, 3⟩)], [((1, 7), ⟨4, 9⟩)], []⟩ 1 7
    (by decide)
  refine ⟨?_, h.2.2 ("pregame".data) (by decide) (by decide)⟩
  rw [(h.1 ⟨4, 9⟩ (by decide)).1]
  decide

/-- Counterexample to C5 as stated: an actor of the guild with stored
counters but no stored income record keeps the previous night counter 5
after the night refill, instead of the claimed default income 0. -/
theorem refill_skips_no_income_counterexample :
    (getCounts 1 7 (resetNight 1 ⟨[((1, 7), ⟨5, 0, 0, 0⟩)], [], []⟩)).night = 5 ∧
    (5 : Int) ≠ 0 := by decide

theorem consumeVisit_pos (g m : Nat) (k : Kind) (d : VisitData)
    (h : 0 < getK k (getCounts g m d)) :
    consumeVisit g m k d =
      (true, ⟨assocSet d.counts (g, m)
        (setK k (getK k (getCounts g m d) - 1) (getCounts g m d)),
        d.income, d.phase⟩) := by
  simp only [consumeVisit, getCounts] at h ⊢
  rw [if_pos h]

theorem consumeVisit_nonpos (g m : Nat) (k : Kind) (d : VisitData)
    (h : ¬0 < getK k (getCounts g m d)) :
    consumeVisit g m k d =
      (false, ⟨assocSet d.counts (g, m) (getCounts g m d), d.income, d.phase⟩) := by
  simp only [consumeVisit, getCounts] at h ⊢
  rw [if_neg h]

/-- C1 amended: a knock request with the modifier set stealth, forced issued
by a non-privileged initiator whose stealth counter is positive and whose
forced counter is not fails with InsufficientTokens and performs no move,
but the modifiers consumed during the attempt are NOT refunded: the stealth
counter of the actor ends exactly one lower than before the request (and the
other counters keep their values). The all-or-nothing refund claimed by the
spec exists only on the separate path where every modifier was consumed and
the subsequent move itself fails. -/
theorem knock_insufficient_no_refund (d : VisitData) (g m : Nat) (moveOk : Bool)
    (hs : 0 < getK .stealth (getCounts g m d))
    (hf : ¬0 < getK .forced (getCounts g m d)) :
    (knockEnchanted false moveOk g m ["stealth".data, "forced".data] d).1 =
      KnockOutcome.insufficientTokens ∧
    getCounts g m (knockEnchanted false moveOk g m ["stealth".data, "forced".data] d).2 =
      setK .stealth (getK .stealth (getCounts g m d) - 1) (getCounts g m d) := by
  have hks : kindOfStr ("stealth".data) = some Kind.stealth := by decide
  have hkf : kindOfStr ("forced".data) = some Kind.forced := by decide
  set d1 : VisitData := ⟨assocSet d.counts (g, m)
    (setK .stealth (getK .stealth (getCounts g m d) - 1) (getCounts g m d)),
    d.income, d.phase⟩ with hd1
  have hc1 : getCounts g m d1 =
      setK .stealth (getK .stealth (getCounts g m d) - 1) (getCounts g m d) :=
    getCounts_after_set g m d _ _ _
  have hf1 : ¬0 < getK .forced (getCounts g m d1) := by
    rw [hc1]
    simpa [getK, setK] using hf
  set d2 : VisitData := ⟨assocSet d1.counts (g, m) (getCounts g m d1),
    d1.income, d1.phase⟩ with hd2
  have hc2 : getCounts g m d2 = getCounts g m d1 := getCounts_after_set g m d1 _ _ _
  have hstep1 : consumeVisitStr g m ("stealth".data) d = (true, d1) := by
    simp only [consumeVisitStr, hks]
    exact consumeVisit_pos g m .stealth d hs
  have hstep2 : consumeVisitStr g m ("forced".data) d1 = (false, d2) := by
    simp only [consumeVisitStr, hkf]
    exact consumeVisit_nonpos g m .forced d1 hf1
  have hfold : consumeEnchants false g m ["stealth".data, "forced".data] d = (false, d2) := by
    show ((true && (consumeVisitStr g m ("stealth".data) d).1) &&
        (consumeVisitStr g m ("forced".data) (consumeVisitStr g m ("stealth".data) d).2).1,
      (consumeVisitStr g m ("forced".data) (consumeVisitStr g m ("stealth".data) d).2).2) =
      (false, d2)
    rw [hstep1]
    simp only [hstep2, Bool.and_true, Bool.true_and, Bool.and_false]
  have hmain : knockEnchanted false moveOk g m ["stealth".data, "forced".data] d =
      (KnockOutcome.insufficientTokens, d2) := by
    simp only [knockEnchanted, hfold]
    simp
  rw [hmain]
  exact ⟨rfl, by rw [hc2, hc1]⟩

/-- Witness for `knock_insufficient_no_refund` at a concrete store:
the actor holds one stealth and no forced token, the request fails and the
stealth counter ends at zero. -/
theorem knock_insufficient_no_refund_witness :
    (knockEnchanted false true 1 7 ["stealth".data, "forced".data]
      ⟨[((1, 7), ⟨0, 0, 0, 1⟩)], [], []⟩).1 = KnockOutcome.insufficientTokens ∧
    getCounts 1 7 (knockEnchanted false true 1 7 ["stealth".data, "forced".data]
      ⟨[((1, 7), ⟨0, 0, 0, 1⟩)], [], []⟩).2 = ⟨0, 0, 0, 0⟩ := by
  have h := knock_insufficient_no_refund ⟨[((1, 7), ⟨0, 0, 0, 1⟩)], [], []⟩ 1 7 true
    (by decide) (by decide)
  exact ⟨h.1, by rw [h.2]; decide⟩

/-- Counterexample to C1 as stated: with one stealth token and no forced
token, a stealth-plus-forced knock fails with InsufficientTokens but the
stealth counter is NOT restored; it drops from 1 to 0, so the modifier
counters are not left as they were. -/
theorem knock_no_refund_counterexample :
    (knockEnchanted false true 1 7 ["stealth".data, "forced".data]
      ⟨[((1, 7), ⟨0, 0, 0, 1⟩)], [], []⟩).1 = KnockOutcome.insufficientTokens ∧
    (getCounts 1 7 (knockEnchanted false true 1 7 ["stealth".data, "forced".data]
      ⟨[((1, 7), ⟨0, 0, 0, 1⟩)], [], []⟩).2).stealth = 0 ∧
    (getCounts 1 7 (⟨[((1, 7), ⟨0, 0, 0, 1⟩)], [], []⟩ : VisitData)).stealth = 1 := by
  decide

/-- Counterexample to C3 as stated: two pending Lethal actions, team shadow
submitted first and team dark second, resolve with the shadow action FIRST
(the Lethal team order ranks shadow at index 1 before dark at index 2), so
the order does not yield the dark action before the shadow action. -/
theorem lethal_order_counterexample :
    sortedPending
      [⟨100, "A1".data, some ("Lethal".data), some ("shadow".data), 0, [], 11⟩,
       ⟨200, "A2".data, some ("Lethal".data), some ("dark".data), 1, [], 12⟩] =
      [⟨100, "A1".data, some ("Lethal".data), some ("shadow".data), 0, [], 11⟩,
       ⟨200, "A2".data, some ("Lethal".data), some ("dark".data), 1, [], 12⟩] ∧
    (⟨100, "A1".data, some ("Lethal".data), some ("shadow".data), 0, [], 11⟩ : Entry) ≠
      ⟨200, "A2".data, some ("Lethal".data), some ("dark".data), 1, [], 12⟩ := by
  decide

/-- C3 amended: for two pending Lethal actions, team shadow and team dark
submitted in that order, the resolution order yields the shadow action before
the dark action (the Lethal category ranks the teams sublime, shadow, dark,
neutral, so shadow at index 1 precedes dark at index 2); every other category
ranks the teams dark, rk, sublime, neutral; and a team absent from the
applicable list, including a missing team, sorts last at 99. -/
theorem lethal_order_amended :
    sortedPending
      [⟨100, "A1".data, some ("Lethal".data), some ("shadow".data), 0, [], 11⟩,
       ⟨200, "A2".data, some ("Lethal".data), some ("dark".data), 1, [], 12⟩] =
      [⟨100, "A1".data, some ("Lethal".data), some ("shadow".data), 0, [], 11⟩,
       ⟨200, "A2".data, some ("Lethal".data), some ("dark".data), 1, [], 12⟩] ∧
    teamIdx (some ("Lethal".data)) (some ("sublime".data)) = 0 ∧
    teamIdx (some ("Lethal".data)) (some ("shadow".data)) = 1 ∧
    teamIdx (some ("Lethal".data)) (some ("dark".data)) = 2 ∧
    teamIdx (some ("Lethal".data)) (some ("neutral".data)) = 3 ∧
    teamIdx (some ("Lethal".data)) (some ("rk".data)) = 99 ∧
    teamIdx (some ("Protection".data)) (some ("dark".data)) = 0 ∧
    teamIdx (some ("Protection".data)) (some ("rk".data)) = 1 ∧
    teamIdx (some ("Protection".data)) (some ("sublime".data)) = 2 ∧
    teamIdx (some ("Protection".data)) (some ("neutral".data)) = 3 ∧
    teamIdx (some ("Protection".data)) (some ("shadow".data)) = 99 ∧
    teamIdx (some ("Lethal".data)) none = 99 := by
  decide

theorem blockRemoved_spec (e : Int) (b : RoleBlock) (u : Str) (ue : Int)
    (hu : b.untilTok = some u) (hp : untilToEpoch u = some ue) :
    (blockRemoved e b = true ↔
      ((b.boundary.getD ("end".data) = "end".data ∧ ue < e) ∨
       (b.boundary.getD ("end".data) = "beginning".data ∧ ue ≤ e))) := by
  have hne : u.isEmpty = false := by
    cases u with
    | nil => rw [show untilToEpoch [] = none from rfl] at hp; cases hp
    | cons c cs => rfl
  have hnf : ¬u = "forever".data := by
    intro hh
    rw [hh, show untilToEpoch ("forever".data) = none from by decide] at hp
    cases hp
  simp only [blockRemoved, hu]
  rw [if_neg (by simp [hne]), if_neg hnf, hp]
  simp

theorem blockRemoved_forever (e : Int) (b : RoleBlock)
    (h : b.untilTok = some ("forever".data)) :
    blockRemoved e b = false := by
  simp only [blockRemoved, h]
  simp

theorem blockRemoved_unparsable (e : Int) (b : RoleBlock) (u : Str)
    (hu : b.untilTok = some u) (hp : untilToEpoch u = none) :
    blockRemoved e b = false := by
  simp only [blockRemoved, hu]
  by_cases h1 : u.isEmpty
  · rw [if_pos h1]
  · rw [if_neg h1]
    by_cases h2 : u = "forever".data
    · rw [if_pos h2]
    · rw [if_neg h2, hp]

theorem mem_filter_keep_iff {α : Type} (l : List α) (p : α → Bool) (x : α)
    (hx : x ∈ l) : (x ∉ l.filter p ↔ p x = false) := by
  constructor
  · intro hn
    cases h : p x
    · rfl
    · exact absurd (List.mem_filter.mpr ⟨hx, h⟩) hn
  · intro h hn
    rw [(List.mem_filter.mp hn).2] at h
    cases h

/-- C2: for every stored block (ability roleblock or location visit block)
whose until token parses to an epoch, the sweep on a phase advancement with
new epoch e removes it exactly when (boundary end and e strictly greater) or
(boundary beginning and e at least the until epoch), with a missing boundary
reading end; a block whose until token is forever is never removed, and a
block whose until token fails to parse is left in place. -/
theorem sweep_boundary_semantics (reg : BlockRegistry) (s : Str) (e : Int)
    (he : phaseEpoch s = some e) :
    (∀ key b u ue, (key, b) ∈ reg.abilityBlocks → b.untilTok = some u →
      untilToEpoch u = some ue →
      ((key, b) ∉ (processPhaseChange s reg).abilityBlocks ↔
        ((b.boundary.getD ("end".data) = "end".data ∧ ue < e) ∨
         (b.boundary.getD ("end".data) = "beginning".data ∧ ue ≤ e)))) ∧
    (∀ key b, (key, b) ∈ reg.abilityBlocks → b.untilTok = some ("forever".data) →
      (key, b) ∈ (processPhaseChange s reg).abilityBlocks) ∧
    (∀ key b u, (key, b) ∈ reg.abilityBlocks → b.untilTok = some u →
      untilToEpoch u = none → (key, b) ∈ (processPhaseChange s reg).abilityBlocks) ∧
    (∀ ch b u ue, (ch, b) ∈ reg.visitBlocks → b.untilTok = some u →
      untilToEpoch u = some ue →
      ((ch, b) ∉ (processPhaseChange s reg).visitBlocks ↔
        ((b.boundary.getD ("end".data) = "end".data ∧ ue < e) ∨
         (b.boundary.getD ("end".data) = "beginning".data ∧ ue ≤ e)))) ∧
    (∀ ch b, (ch, b) ∈ reg.visitBlocks → b.untilTok = some ("forever".data) →
      (ch, b) ∈ (processPhaseChange s reg).visitBlocks) ∧
    (∀ ch b u, (ch, b) ∈ reg.visitBlocks → b.untilTok = some u →
      untilToEpoch u = none → (ch, b) ∈ (processPhaseChange s reg).visitBlocks) := by
  have hreg : processPhaseChange s reg =
      { abilityBlocks := reg.abilityBlocks.filter (fun kb => !blockRemoved e kb.2),
        visitBlocks := reg.visitBlocks.filter (fun kb => !blockRemoved e kb.2) } := by
    unfold processPhaseChange
    rw [he]
  rw [hreg]
  refine ⟨fun key b u ue hmem hu hp => ?_, fun key b hmem hu => ?_,
    fun key b u hmem hu hp => ?_, fun ch b u ue hmem hu hp => ?_,
    fun ch b hmem hu => ?_, fun ch b u hmem hu hp => ?_⟩
  · rw [mem_filter_keep_iff _ _ _ hmem]
    rw [show ((!blockRemoved e b) = false ↔ blockRemoved e b = true) from by
      cases blockRemoved e b <;> simp]
    exact blockRemoved_spec e b u ue hu hp
  · exact List.mem_filter.mpr ⟨hmem, by simp [blockRemoved_forever e b hu]⟩
  · exact List.mem_filter.mpr ⟨hmem, by simp [blockRemoved_unparsable e b u hu hp]⟩
  · rw [mem_filter_keep_iff _ _ _ hmem]
    rw [show ((!blockRemoved e b) = false ↔ blockRemoved e b = true) from by
      cases blockRemoved e b <;> simp]
    exact blockRemoved_spec e b u ue hu hp
  · exact List.mem_filter.mpr ⟨hmem, by simp [blockRemoved_forever e b hu]⟩
  · exact List.mem_filter.mpr ⟨hmem, by simp [blockRemoved_unparsable e b u hu hp]⟩

/-- Witness for `sweep_boundary_semantics`: advancing to Day 3 (epoch 4)
removes an ability block until n2 (epoch 3, boundary end) and keeps a forever
visit block; advancing to Night 2 (epoch 3) keeps that same end-boundary
block but removes a beginning-boundary block at the same expiry. -/
theorem sweep_boundary_semantics_witness :
    ((5, "A1".data), (⟨some ("n2".data), none⟩ : RoleBlock)) ∉
      (processPhaseChange ("Day 3".data)
        ⟨[((5, "A1".data), ⟨some ("n2".data), none⟩)],
         [(6, ⟨some ("forever".data), none⟩)]⟩).abilityBlocks ∧
    (6, (⟨some ("forever".data), none⟩ : RoleBlock)) ∈
      (processPhaseChange ("Day 3".data)
        ⟨[((5, "A1".data), ⟨some ("n2".data), none⟩)],
         [(6, ⟨some ("forever".data), none⟩)]⟩).visitBlocks ∧
    ((5, "A1".data), (⟨some ("n2".data), none⟩ : RoleBlock)) ∈
      (processPhaseChange ("Night 2".data)
        ⟨[((5, "A1".data), ⟨some ("n2".data), none⟩)],
         [(6, ⟨some ("n2".data), some ("beginning".data)⟩)]⟩).abilityBlocks ∧
    (6, (⟨some ("n2".data), some ("beginning".data)⟩ : RoleBlock)) ∉
      (processPhaseChange ("Night 2".data)
        ⟨[((5, "A1".data), ⟨some ("n2".data), none⟩)],
         [(6, ⟨some ("n2".data), some ("beginning".data)⟩)]⟩).visitBlocks := by
  have h1 := sweep_boundary_semantics
    ⟨[((5, "A1".data), ⟨some ("n2".data), none⟩)],
     [(6, ⟨some ("forever".data), none⟩)]⟩ ("Day 3".data) 4 (by decide)
  have h2 := sweep_boundary_semantics
    ⟨[((5, "A1".data), ⟨some ("n2".data), none⟩)],
     [(6, ⟨some ("n2".data), some ("beginning".data)⟩)]⟩ ("Night 2".data) 3 (by decide)
  refine ⟨?_, ?_, ?_, ?_⟩
  · exact (h1.1 _ _ ("n2".data) 3 (by decide) rfl (by decide)).mpr (by decide)
  · exact h1.2.2.2.2.1 6 _ (by decide) rfl
  · by_contra hn
    have := (h2.1 _ _ ("n2".data) 3 (by decide) rfl (by decide)).mp hn
    revert this
    decide
  · exact (h2.2.2.2.1 6 _ ("n2".data) 3 (by decide) rfl (by decide)).mpr (by decide)

/-- C10: advancing the phase to a string that has no epoch leaves the block
registry completely unchanged (no entry is removed, not even one whose
expiry epoch has already passed), and in particular the pregame and postgame
display phases never trigger an expiry sweep. -/
theorem no_epoch_no_sweep :
    (∀ s reg, phaseEpoch s = none → processPhaseChange s reg = reg) ∧
    (∀ count reg, processPhaseChange (displayPhase ("pregame".data) count) reg = reg) ∧
    (∀ count reg, processPhaseChange (displayPhase ("postgame".data) count) reg = reg) := by
  have main : ∀ s reg, phaseEpoch s = none → processPhaseChange s reg = reg := by
    intro s reg h
    unfold processPhaseChange
    rw [h]
  refine ⟨main, fun count reg => ?_, fun count reg => ?_⟩
  · rw [show displayPhase ("pregame".data) count = "pregame".data from rfl]
    exact main _ reg (by decide)
  · rw [show displayPhase ("postgame".data) count = "postgame".data from rfl]
    exact main _ reg (by decide)

/-- Witness for `no_epoch_no_sweep`: a registry holding a long-expired block
(until d1, epoch 0) survives a pregame transition untouched. -/
theorem no_epoch_no_sweep_witness :
    processPhaseChange (displayPhase ("pregame".data) 9)
      ⟨[((5, "A1".data), ⟨some ("d1".data), none⟩)], []⟩ =
      ⟨[((5, "A1".data), ⟨some ("d1".data), none⟩)], []⟩ ∧
    processPhaseChange ("postgame".data)
      ⟨[((5, "A1".data), ⟨some ("d1".data), none⟩)], []⟩ =
      ⟨[((5, "A1".data), ⟨some ("d1".data), none⟩)], []⟩ := by
  exact ⟨no_epoch_no_sweep.2.1 9 _, no_epoch_no_sweep.1 ("postgame".data) _ (by decide)⟩

theorem osFold_lists (reg : BlockRegistry) (l : List Entry) :
    ∀ (v : VisitsMap) (a : List Entry) (s : List (Entry × Str)),
      (l.foldl (osStep reg) (v, a, s)).2.1 =
        a ++ l.filter (fun p => !entryBlocked reg p) ∧
      (l.foldl (osStep reg) (v, a, s)).2.2 =
        s ++ (l.filter (fun p => entryBlocked reg p)).map
          (fun p => (p, skipReason reg p)) := by
  induction l with
  | nil => intro v a s; simp
  | cons p rest ih =>
    intro v a s
    by_cases hab : isAbilityBlocked reg p = true
    · have hb : entryBlocked reg p = true := by simp [entryBlocked, hab]
      have hstep : osStep reg (v, a, s) p = (v, a, s ++ [(p, "ability_blocked".data)]) := by
        simp [osStep, hab]
      rw [List.foldl_cons, hstep]
      rcases ih v a (s ++ [(p, "ability_blocked".data)]) with ⟨ha, hs⟩
      refine ⟨?_, ?_⟩
      · rw [ha, List.filter_cons_of_neg (by simp [hb])]
      · rw [hs, List.filter_cons_of_pos hb, List.map_cons,
          show skipReason reg p = "ability_blocked".data by simp [skipReason, hab]]
        simp
    · by_cases hvb : isVisitBlockedOn reg p = true
      · have hb : entryBlocked reg p = true := by simp [entryBlocked, hvb]
        have hstep : osStep reg (v, a, s) p = (v, a, s ++ [(p, "visit_blocked".data)]) := by
          simp [osStep, hab, hvb]
        rw [List.foldl_cons, hstep]
        rcases ih v a (s ++ [(p, "visit_blocked".data)]) with ⟨ha, hs⟩
        refine ⟨?_, ?_⟩
        · rw [ha, List.filter_cons_of_neg (by simp [hb])]
        · rw [hs, List.filter_cons_of_pos hb, List.map_cons,
            show skipReason reg p = "visit_blocked".data by simp [skipReason, hab]]
          simp
      · have hb : entryBlocked reg p = false := by simp [entryBlocked, hab, hvb]
        have hstep : osStep reg (v, a, s) p =
            (visitStep v p.channelId, a ++ [p], s) := by
          simp [osStep, hab, hvb]
        rw [List.foldl_cons, hstep]
        rcases ih (visitStep v p.channelId) (a ++ [p]) s with ⟨ha, hs⟩
        refine ⟨?_, ?_⟩
        · rw [ha, List.filter_cons_of_pos (by simp [hb])]
          simp
        · rw [hs, List.filter_cons_of_neg (by simp [hb])]

theorem processOs_applied_iff (st : OsState) (p : Entry) :
    p ∈ (processOs st).applied ↔
      p ∈ st.pending ∧ entryBlocked st.blocks p = false := by
  have happ : (processOs st).applied =
      (sortedPending st.pending).filter (fun q => !entryBlocked st.blocks q) := by
    show ((sortedPending st.pending).foldl (osStep st.blocks)
      (st.visits, [], [])).2.1 = _
    rw [(osFold_lists st.blocks (sortedPending st.pending) st.visits [] []).1]
    simp
  rw [happ, List.mem_filter]
  have hperm : p ∈ sortedPending st.pending ↔ p ∈ st.pending :=
    (List.perm_insertionSort entryLE st.pending).mem_iff
  rw [hperm]
  constructor
  · rintro ⟨h1, h2⟩
    refine ⟨h1, ?_⟩
    cases h : entryBlocked st.blocks p
    · rfl
    · rw [h] at h2; cases h2
  · rintro ⟨h1, h2⟩
    exact ⟨h1, by simp [h2]⟩

theorem processOs_pending_eq (st : OsState) :
    (processOs st).pending = st.pending.filter (fun p => entryBlocked st.blocks p) := by
  have hpend : (processOs st).pending =
      st.pending.filter (fun p => decide (p ∉ (processOs st).applied)) := rfl
  rw [hpend]
  apply List.filter_congr
  intro p hp
  by_cases hb : entryBlocked st.blocks p = true
  · have hnmem : p ∉ (processOs st).applied := by
      rw [processOs_applied_iff]
      rintro ⟨-, hfalse⟩
      rw [hb] at hfalse
      cases hfalse
    simp [hnmem, hb]
  · have hbf : entryBlocked st.blocks p = false := by
      cases h : entryBlocked st.blocks p
      · rfl
      · exact absurd h hb
    have hmem : p ∈ (processOs st).applied :=
      (processOs_applied_iff st p).mpr ⟨hp, hbf⟩
    simp [hmem, hbf]

theorem processOs_skipped_sub (st : OsState) :
    ∀ pr ∈ (processOs st).skipped,
      pr.1 ∈ st.pending ∧ entryBlocked st.blocks pr.1 = true := by
  intro pr hpr
  have hskip : (processOs st).skipped =
      ((sortedPending st.pending).filter (fun q => entryBlocked st.blocks q)).map
        (fun q => (q, skipReason st.blocks q)) := by
    show ((sortedPending st.pending).foldl (osStep st.blocks)
      (st.visits, [], [])).2.2 = _
    rw [(osFold_lists st.blocks (sortedPending st.pending) st.visits [] []).2]
    simp
  rw [hskip] at hpr
  obtain ⟨q, hq, rfl⟩ := List.mem_map.mp hpr
  have hf := List.mem_filter.mp hq
  exact ⟨(List.perm_insertionSort entryLE st.pending).mem_iff.mp hf.1, hf.2⟩

/-- C8: after a resolve cycle the pending queue contains exactly the entries
that were skipped as blocked: the queue equals the blocked-filtered original
queue, every applied (processed) entry is gone from the queue, and every
skipped entry is still pending for the next cycle. -/
theorem resolve_retains_skipped (st : OsState) :
    (processOs st).pending = st.pending.filter (fun p => entryBlocked st.blocks p) ∧
    (∀ p, p ∈ (processOs st).applied → p ∉ (processOs st).pending) ∧
    (∀ pr, pr ∈ (processOs st).skipped → pr.1 ∈ (processOs st).pending) := by
  refine ⟨processOs_pending_eq st, fun p hp hmem => ?_, fun pr hpr => ?_⟩
  · rw [processOs_pending_eq st] at hmem
    have h1 := (processOs_applied_iff st p).mp hp
    have h2 := (List.mem_filter.mp hmem).2
    rw [h1.2] at h2
    cases h2
  · have h := processOs_skipped_sub st pr hpr
    rw [processOs_pending_eq st]
    exact List.mem_filter.mpr ⟨h.1, h.2⟩

/-- Witness for `resolve_retains_skipped`: a queue with a roleblocked entry
(channel 5, ability A1) and a free entry (channel 7) keeps exactly the
blocked entry pending, and the applied entry is no longer queued. -/
theorem resolve_retains_skipped_witness :
    (processOs ⟨[⟨5, "A1".data, some ("Blocking".data), none, 0, [], 1⟩,
                 ⟨7, "A2".data, some ("Lethal".data), none, 1, [], 2⟩],
      ⟨[((5, "A1".data), ⟨some ("forever".data), none⟩)], []⟩, []⟩).pending =
      [⟨5, "A1".data, some ("Blocking".data), none, 0, [], 1⟩] ∧
    (⟨7, "A2".data, some ("Lethal".data), none, 1, [], 2⟩ : Entry) ∉
      (processOs ⟨[⟨5, "A1".data, some ("Blocking".data), none, 0, [], 1⟩,
                   ⟨7, "A2".data, some ("Lethal".data), none, 1, [], 2⟩],
        ⟨[((5, "A1".data), ⟨some ("forever".data), none⟩)], []⟩, []⟩).pending := by
  have h := resolve_retains_skipped
    ⟨[⟨5, "A1".data, some ("Blocking".data), none, 0, [], 1⟩,
      ⟨7, "A2".data, some ("Lethal".data), none, 1, [], 2⟩],
      ⟨[((5, "A1".data), ⟨some ("forever".data), none⟩)], []⟩, []⟩
  constructor
  · rw [h.1]
    decide
  · exact h.2.1 _ (by decide)

theorem takeWhile_append_all {α : Type} (q : α → Bool) (l1 l2 : List α)
    (h : ∀ c ∈ l1, q c = true) :
    (l1 ++ l2).takeWhile q = l1 ++ l2.takeWhile q := by
  induction l1 with
  | nil => simp
  | cons c cs ih =>
    rw [List.cons_append, List.takeWhile_cons_of_pos (h c (by simp)),
      ih (fun x hx => h x (by simp [hx]))]
    rfl

theorem takeWhile_dropWhile_nil {α : Type} (q : α → Bool) (l : List α) :
    (l.dropWhile q).takeWhile q = [] := by
  induction l with
  | nil => rfl
  | cons c cs ih =>
    by_cases h : q c = true
    · rw [List.dropWhile_cons_of_pos h]
      exact ih
    · rw [List.dropWhile_cons_of_neg (by simp [h]),
        List.takeWhile_cons_of_neg (by simp [h])]

/-- C9: a pending entry that is neither ability-blocked nor visit-blocked is
always applied by the resolve cycle; the visit consumption attached to it is
best-effort, trying regular, stealth, forced, both in that fixed order: a
location with no inventory entry is simply left alone (not an error); the
first stored kind is the one consumed with the other three untouched, stated
for each of the four arms (regular present; regular absent and stealth
present; regular and stealth absent and forced present; only both present);
and a stored uses string with leading count c is decremented by exactly one
unit (deleted at c at most 1, rewritten with leading count c - 1 otherwise),
which gives the one-unit consumption of whichever arm fires. -/
theorem resolve_applies_best_effort (st : OsState) (p : Entry)
    (hp : p ∈ st.pending)
    (hab : isAbilityBlocked st.blocks p = false)
    (hvb : isVisitBlockedOn st.blocks p = false) :
    p ∈ (processOs st).applied ∧
    (∀ vm ch, assocFind vm ch = none → visitStep vm ch = vm) ∧
    (∀ cv v, cv.regular = some v →
      consumeChannelVisit cv = { cv with regular := updateVal v }) ∧
    (∀ cv v, cv.regular = none → cv.stealth = some v →
      consumeChannelVisit cv = { cv with stealth := updateVal v }) ∧
    (∀ cv v, cv.regular = none → cv.stealth = none → cv.forced = some v →
      consumeChannelVisit cv = { cv with forced := updateVal v }) ∧
    (∀ cv v, cv.regular = none → cv.stealth = none → cv.forced = none →
      cv.both = some v →
      consumeChannelVisit cv = { cv with both := updateVal v }) ∧
    (∀ v, (v.takeWhile isDigitCh).isEmpty = false →
      (parseNat (v.takeWhile isDigitCh) ≤ 1 → updateVal v = none) ∧
      (2 ≤ parseNat (v.takeWhile isDigitCh) →
        updateVal v = some (natReprRec (parseNat (v.takeWhile isDigitCh) - 1) ++
          v.dropWhile isDigitCh) ∧
        parseNat ((natReprRec (parseNat (v.takeWhile isDigitCh) - 1) ++
          v.dropWhile isDigitCh).takeWhile isDigitCh) =
            parseNat (v.takeWhile isDigitCh) - 1)) := by
  refine ⟨?_, ?_, ?_, ?_, ?_, ?_, ?_⟩
  · exact (processOs_applied_iff st p).mpr ⟨hp, by simp [entryBlocked, hab, hvb]⟩
  · intro vm ch h
    simp [visitStep, h]
  · intro cv v h
    simp [consumeChannelVisit, h]
  · intro cv v h1 h2
    simp [consumeChannelVisit, h1, h2]
  · intro cv v h1 h2 h3
    simp [consumeChannelVisit, h1, h2, h3]
  · intro cv v h1 h2 h3 h4
    simp [consumeChannelVisit, h1, h2, h3, h4]
  · intro v hne
    constructor
    · intro hle
      simp only [updateVal]
      rw [if_neg (by simp [hne]), if_pos (by omega)]
    · intro hge
      have hcnt : ¬((parseNat (v.takeWhile isDigitCh) : Int) - 1 ≤ 0) := by omega
      have htn : ((parseNat (v.takeWhile isDigitCh) : Int) - 1).toNat =
          parseNat (v.takeWhile isDigitCh) - 1 := by omega
      constructor
      · simp only [updateVal]
        rw [if_neg (by simp [hne]), if_neg hcnt, htn]
      · rw [takeWhile_append_all isDigitCh _ _
          (natReprRec_all_digit (parseNat (v.takeWhile isDigitCh) - 1)),
          takeWhile_dropWhile_nil, List.append_nil, parseNat_natReprRec]

/-- Witness for `resolve_applies_best_effort`: a lone unblocked entry on
channel 7 with no visit inventory at all is applied, a stored uses string
`2n` is decremented to `1n`, and each of the four preference arms consumes
from its own kind (regular first, then stealth, forced, both). -/
theorem resolve_applies_best_effort_witness :
    (⟨7, "A2".data, some ("Lethal".data), none, 1, [], 2⟩ : Entry) ∈
      (processOs ⟨[⟨7, "A2".data, some ("Lethal".data), none, 1, [], 2⟩],
        ⟨[], []⟩, []⟩).applied ∧
    updateVal ("2n".data) = some ("1n".data) ∧
    visitStep [] 7 = [] ∧
    consumeChannelVisit ⟨some ("2n".data), some ("9n".data), some ("9n".data),
      some ("9n".data)⟩ =
      ⟨some ("1n".data), some ("9n".data), some ("9n".data), some ("9n".data)⟩ ∧
    consumeChannelVisit ⟨none, some ("2n".data), some ("9n".data), some ("9n".data)⟩ =
      ⟨none, some ("1n".data), some ("9n".data), some ("9n".data)⟩ ∧
    consumeChannelVisit ⟨none, none, some ("2n".data), some ("9n".data)⟩ =
      ⟨none, none, some ("1n".data), some ("9n".data)⟩ ∧
    consumeChannelVisit ⟨none, none, none, some ("2n".data)⟩ =
      ⟨none, none, none, some ("1n".data)⟩ := by
  have h := resolve_applies_best_effort
    ⟨[⟨7, "A2".data, some ("Lethal".data), none, 1, [], 2⟩], ⟨[], []⟩, []⟩
    ⟨7, "A2".data, some ("Lethal".data), none, 1, [], 2⟩
    (by decide) rfl rfl
  have h5 := (h.2.2.2.2.2.2 ("2n".data) (by decide)).2 (by decide)
  refine ⟨h.1, ?_, h.2.1 [] 7 rfl, ?_, ?_, ?_, ?_⟩
  · rw [h5.1]
    decide
  · rw [h.2.2.1 ⟨some ("2n".data), some ("9n".data), some ("9n".data),
      some ("9n".data)⟩ ("2n".data) rfl, h5.1]
    decide
  · rw [h.2.2.2.1 ⟨none, some ("2n".data), some ("9n".data), some ("9n".data)⟩
      ("2n".data) rfl rfl, h5.1]
    decide
  · rw [h.2.2.2.2.1 ⟨none, none, some ("2n".data), some ("9n".data)⟩
      ("2n".data) rfl rfl rfl, h5.1]
    decide
  · rw [h.2.2.2.2.2.1 ⟨none, none, none, some ("2n".data)⟩
      ("2n".data) rfl rfl rfl rfl, h5.1]
    decide

theorem splitWSAux_word_space (w : Str) :
    ∀ (acc : List Char) (rest : Str), w ≠ [] →
      (∀ c ∈ w, isWSCh c = false) → rest ≠ [] →
      (∀ c ∈ rest, isWSCh c = false) →
      splitWSAux (w ++ ' ' :: rest) acc = [acc.reverse ++ w, rest] := by
  induction w with
  | nil => intro acc rest hw _ _ _; exact absurd rfl hw
  | cons c cs ih =>
    intro acc rest _ hwns hrest hrns
    rw [List.cons_append, splitWSAux_cons_notWS _ _ (hwns c (by simp))]
    cases cs with
    | nil =>
      rw [List.nil_append, splitWSAux_cons_ws _ _ (by decide) (by simp)]
      rw [splitWSAux_all_notWS rest [] hrest hrns]
      simp
    | cons d dd =>
      rw [ih (c :: acc) rest (by simp) (fun x hx => hwns x (by simp [hx])) hrest hrns]
      simp

theorem phaseEpoch_day_ds (ds : Str) (hne : ds ≠ [])
    (hdig : ∀ c ∈ ds, isDigitCh c = true) :
    phaseEpoch ("Day ".data ++ ds) = some (((parseNat ds : Int) - 1) * 2) := by
  have hdsE : ds.isEmpty = false := by
    cases ds with
    | nil => exact absurd rfl hne
    | cons c cs => rfl
  have hstrip : stripList ('D' :: ("ay ".data ++ ds)) = 'D' :: ("ay ".data ++ ds) :=
    stripList_word_digits ("ay ".data) ds hne hdig 'D' (by decide)
  have hsplit : splitWS ('D' :: ("ay ".data ++ ds)) = ["Day".data, ds] := by
    show splitWSAux ("Day".data ++ ' ' :: ds) [] = _
    rw [splitWSAux_word_space ("Day".data) [] ds (by simp) (by decide) hne
      (fun c hc => digit_not_ws (hdig c hc))]
    simp
  show phaseEpoch ('D' :: ("ay ".data ++ ds)) = some (((parseNat ds : Int) - 1) * 2)
  simp only [phaseEpoch, List.isEmpty_cons, Bool.false_eq_true, if_false, hstrip, hsplit]
  rw [if_pos ⟨by simp [hdsE], List.all_eq_true.mpr hdig⟩,
    if_pos (show (toLowerList ("Day".data)).head? = some 'd' from by decide)]
  simp

theorem phaseEpoch_night_ds (ds : Str) (hne : ds ≠ [])
    (hdig : ∀ c ∈ ds, isDigitCh c = true) :
    phaseEpoch ("Night ".data ++ ds) = some (((parseNat ds : Int) - 1) * 2 + 1) := by
  have hdsE : ds.isEmpty = false := by
    cases ds with
    | nil => exact absurd rfl hne
    | cons c cs => rfl
  have hstrip : stripList ('N' :: ("ight ".data ++ ds)) = 'N' :: ("ight ".data ++ ds) :=
    stripList_word_digits ("ight ".data) ds hne hdig 'N' (by decide)
  have hsplit : splitWS ('N' :: ("ight ".data ++ ds)) = ["Night".data, ds] := by
    show splitWSAux ("Night".data ++ ' ' :: ds) [] = _
    rw [splitWSAux_word_space ("Night".data) [] ds (by simp) (by decide) hne
      (fun c hc => digit_not_ws (hdig c hc))]
    simp
  show phaseEpoch ('N' :: ("ight ".data ++ ds)) = some (((parseNat ds : Int) - 1) * 2 + 1)
  simp only [phaseEpoch, List.isEmpty_cons, Bool.false_eq_true, if_false, hstrip, hsplit]
  rw [if_pos ⟨by simp [hdsE], List.all_eq_true.mpr hdig⟩,
    if_neg (show ¬(toLowerList ("Night".data)).head? = some 'd' from by decide)]

/-- C7 amended: for every cycle number n at least 1, the display phase Day n
maps to epoch 2(n-1) and Night n to 2(n-1)+1, hence
epoch(day, n) < epoch(night, n) < epoch(day, n+1); the pregame and postgame
phase strings have no epoch. (The further claim that EVERY string not of the
form Day n / Night n has no epoch is false, see the counterexample: any
second-token-numeric string such as Limbo 3 parses, with a non-d word read as
night.) -/
theorem epoch_formulas (n : Nat) (hn : 1 ≤ n) :
    phaseEpoch (displayPhase ("day".data) n) = some (2 * ((n : Int) - 1)) ∧
    phaseEpoch (displayPhase ("night".data) n) = some (2 * ((n : Int) - 1) + 1) ∧
    phaseEpoch (displayPhase ("day".data) (n + 1)) = some (2 * (((n : Int) + 1) - 1)) ∧
    (2 * ((n : Int) - 1) < 2 * ((n : Int) - 1) + 1 ∧
      2 * ((n : Int) - 1) + 1 < 2 * (((n : Int) + 1) - 1)) ∧
    phaseEpoch ("pregame".data) = none ∧
    phaseEpoch ("postgame".data) = none := by
  have hday : ∀ m : Nat,
      phaseEpoch (displayPhase ("day".data) m) = some (2 * ((m : Int) - 1)) := by
    intro m
    have h := phaseEpoch_day_ds (natReprRec m) (natReprRec_ne_nil m)
      (natReprRec_all_digit m)
    rw [parseNat_natReprRec] at h
    calc phaseEpoch (displayPhase ("day".data) m)
        = phaseEpoch ("Day ".data ++ natReprRec m) := rfl
      _ = some (((m : Int) - 1) * 2) := h
      _ = some (2 * ((m : Int) - 1)) := by ring_nf
  have hnight :
      phaseEpoch (displayPhase ("night".data) n) = some (2 * ((n : Int) - 1) + 1) := by
    have h := phaseEpoch_night_ds (natReprRec n) (natReprRec_ne_nil n)
      (natReprRec_all_digit n)
    rw [parseNat_natReprRec] at h
    calc phaseEpoch (displayPhase ("night".data) n)
        = phaseEpoch ("Night ".data ++ natReprRec n) := rfl
      _ = some (((n : Int) - 1) * 2 + 1) := h
      _ = some (2 * ((n : Int) - 1) + 1) := by ring_nf
  refine ⟨hday n, hnight, ?_, ⟨by omega, by omega⟩, by decide, by decide⟩
  rw [hday (n + 1)]
  norm_num

/-- Witness for `epoch_formulas` at n = 2: Day 2 has epoch 2, Night 2 has
epoch 3, Day 3 has epoch 4. -/
theorem epoch_formulas_witness :
    phaseEpoch (displayPhase ("day".data) 2) = some 2 ∧
    phaseEpoch (displayPhase ("night".data) 2) = some 3 ∧
    phaseEpoch (displayPhase ("day".data) 3) = some 4 := by
  have h := epoch_formulas 2 (by norm_num)
  refine ⟨?_, ?_, ?_⟩
  · rw [h.1]; decide
  · rw [h.2.1]; decide
  · rw [h.2.2.1]; decide

/-- Counterexample to C7 as stated: the string Limbo 3 is not of the form
Day n / Night n (and is not a pregame/postgame token), yet the conversion
yields an epoch: any string whose second token is numeric parses, and a
first word not starting with d is read as a night. -/
theorem epoch_nonphase_counterexample :
    phaseEpoch ("Limbo 3".data) = some 5 ∧ phaseEpoch ("Limbo 3".data) ≠ none := by
  decide
